import Mathlib

set_option maxRecDepth 100000
set_option maxHeartbeats 4000000

/-!
Verification of the Teeko2 game-playing agent (game.py) against its
natural-language specification.

The board is a 5×5 grid of cells; a cell is empty (' ') or holds one of the
two pieces 'b' / 'r'.  Boards are embedded as lists of lists of cells,
matching the Python list-of-lists representation; cell access out of range
yields the empty cell (the Python code only indexes inside the 5×5 range on
well-formed boards).  The process-wide counter drop_phase_check and the
agent's piece identity my_piece are instance state in Python and are passed
here as explicit parameters.  All numeric scores are embedded as rationals:
the Python floats 0.05, 0.1, 0.2, ±1 and ±1000 are exactly representable and
no claim depends on float rounding.  Python's in-place mutation of a deep
copy of the board becomes a functional update.
-/

namespace Teeko2

/-- The two piece colors 'b' and 'r' (game.py `pieces = ['b', 'r']`). -/
inductive Piece : Type where
  | b : Piece
  | r : Piece
deriving DecidableEq, Fintype, Repr

/-- The opposite color: in game.py, `self.opp` is the element of
`['b', 'r']` that is not `self.my_piece`. -/
def Piece.other : Piece → Piece
  | Piece.b => Piece.r
  | Piece.r => Piece.b

/-- A cell of the board: empty (' ') or holding a piece. -/
abbrev Cell : Type := Option Piece

/-- A board state: Python's list of 5 lists of 5 cells. -/
abbrev Board : Type := List (List Cell)

/-- A move: Python's list of (row, col) tuples — one tuple for a placement,
two tuples (destination, source) for a relocation. -/
abbrev Move : Type := List (Nat × Nat)

/-- Read `state[row][col]`; out-of-range access yields the empty cell. -/
def getCell (s : Board) (row col : Nat) : Cell :=
  (s.getD row []).getD col none

/-- Write `state[row][col] = v` functionally (Python mutates a deep copy). -/
def setCell (s : Board) (row col : Nat) (v : Cell) : Board :=
  s.set row ((s.getD row []).set col v)

/-- Well-formedness: the board is a 5×5 grid. -/
def WF (s : Board) : Prop :=
  s.length = 5 ∧ ∀ row ∈ s, row.length = 5

instance : DecidablePred WF := fun s => by unfold WF; infer_instance

/-- The 25 coordinates of the grid in row-major order. -/
def allCoords : List (Nat × Nat) :=
  (List.range 5).flatMap fun row => (List.range 5).map fun col => (row, col)

/-- Value of a line of four cells for the win scan: the Python test
`c0 != ' ' and c0 == c1 == c2 == c3`, yielding 1 for `my_piece`, -1 for the
opponent, and no value when the line does not match. -/
def lineVal (my : Piece) (c0 c1 c2 c3 : Cell) : Option ℚ :=
  match c0 with
  | none => none
  | some p =>
      if c1 = some p ∧ c2 = some p ∧ c3 = some p then
        some (if p = my then 1 else -1)
      else none

/-- Value of a 3×3 box for the win scan: the Python test
`c0 != ' ' and center == ' ' and c0 == c1 == c2 == c3` over the four
corners of the box. -/
def boxVal (my : Piece) (c0 center c1 c2 c3 : Cell) : Option ℚ :=
  match c0 with
  | none => none
  | some p =>
      if center = none ∧ c1 = some p ∧ c2 = some p ∧ c3 = some p then
        some (if p = my then 1 else -1)
      else none

/-- Horizontal win scan of game.py `game_value`: rows 0..4, start
columns 0..1, in that order. -/
def hscan (my : Piece) (s : Board) : Option ℚ :=
  (List.range 5).findSome? fun row =>
    (List.range 2).findSome? fun i =>
      lineVal my (getCell s row i) (getCell s row (i+1))
        (getCell s row (i+2)) (getCell s row (i+3))

/-- Vertical win scan: columns 0..4, start rows 0..1. -/
def vscan (my : Piece) (s : Board) : Option ℚ :=
  (List.range 5).findSome? fun col =>
    (List.range 2).findSome? fun i =>
      lineVal my (getCell s i col) (getCell s (i+1) col)
        (getCell s (i+2) col) (getCell s (i+3) col)

/-- Top-left to bottom-right diagonal win scan. -/
def dscan1 (my : Piece) (s : Board) : Option ℚ :=
  (List.range 2).findSome? fun row =>
    (List.range 2).findSome? fun col =>
      lineVal my (getCell s row col) (getCell s (row+1) (col+1))
        (getCell s (row+2) (col+2)) (getCell s (row+3) (col+3))

/-- Top-right to bottom-left diagonal win scan. -/
def dscan2 (my : Piece) (s : Board) : Option ℚ :=
  (List.range 2).findSome? fun row =>
    (List.range 2).findSome? fun col =>
      lineVal my (getCell s row (4-col)) (getCell s (row+1) (3-col))
        (getCell s (row+2) (2-col)) (getCell s (row+3) (1-col))

/-- 3×3 square-corner ("box") win scan: the corners of the 3×3 sub-square
with top-left corner (row, col) must hold the same piece and its center
(row+1, col+1) must be empty. -/
def boxscan (my : Piece) (s : Board) : Option ℚ :=
  (List.range 3).findSome? fun row =>
    (List.range 3).findSome? fun col =>
      boxVal my (getCell s row col) (getCell s (row+1) (col+1))
        (getCell s row (col+2)) (getCell s (row+2) col)
        (getCell s (row+2) (col+2))

/-- First matching pattern value across the five scans, in the source's
scan order (horizontal, vertical, both diagonals, box). -/
def patternVal (my : Piece) (s : Board) : Option ℚ :=
  (((hscan my s).orElse fun _ => vscan my s).orElse fun _ =>
    ((dscan1 my s).orElse fun _ => dscan2 my s)).orElse fun _ => boxscan my s

/-- game.py `game_value`: 1 if this player wins, -1 if the opponent wins,
0 if no winner.  A matching pattern returns immediately with the value
owned by the piece that fills it; otherwise 0. -/
def game_value (my : Piece) (s : Board) : ℚ :=
  (patternVal my s).getD 0

/-- The weight matrix of game.py `heuristic_game_value`, exactly as the
code builds it: `a = 0.05`, `b = 0.1`, `c = 0.2` placed as
`[[c,c,c,c,c],[c,b,b,b,c],[c,b,a,b,c],[c,b,b,b,c],[c,c,c,c,c]]`.
So the code gives the center cell weight 0.05 and the border weight 0.2
(its own docstring says c = 0.05 and a = 0.2, i.e. the opposite). -/
def weightMatrix : List (List ℚ) :=
  [[1/5, 1/5, 1/5, 1/5, 1/5],
   [1/5, 1/10, 1/10, 1/10, 1/5],
   [1/5, 1/10, 1/20, 1/10, 1/5],
   [1/5, 1/10, 1/10, 1/10, 1/5],
   [1/5, 1/5, 1/5, 1/5, 1/5]]

/-- `weight[row][col]` of the heuristic's weight matrix. -/
def weight (row col : Nat) : ℚ :=
  (weightMatrix.getD row []).getD col 0

/-- game.py `heuristic_game_value`: when `drop_phase_check < 3`, the sum
over all cells of the weight (added for the agent's piece, subtracted for
the opponent's piece); otherwise 0. -/
def heuristic_game_value (dpc : Nat) (my : Piece) (s : Board) : ℚ :=
  if dpc < 3 then
    (List.range 5).foldl (fun acc row =>
      (List.range 5).foldl (fun acc2 col =>
        if getCell s row col = some my then acc2 + weight row col
        else if getCell s row col = some my.other then acc2 - weight row col
        else acc2) acc) 0
  else 0

/-- The nine (i, j) offsets of Python's
`for i in range(-1, 2): for j in range(-1, 2)` in iteration order. -/
def offsets : List (Int × Int) :=
  [(-1,-1),(-1,0),(-1,1),(0,-1),(0,0),(0,1),(1,-1),(1,0),(1,1)]

/-- game.py `succ`: legal successors, as (move, new state) pairs.

In the drop phase (`drop_phase_check < 9`) each empty cell yields a
placement successor; afterwards each cell holding `turn_piece` yields, for
each in-bounds empty neighbor (no wraparound), a relocation successor where
the neighbor receives the piece and the source becomes empty. -/
def succ (dpc : Nat) (s : Board) (turn_piece : Piece) : List (Move × Board) :=
  if dpc < 9 then
    (List.range 5).flatMap fun row =>
      (List.range 5).flatMap fun col =>
        if getCell s row col = none then
          [([(row, col)], setCell s row col (some turn_piece))]
        else []
  else
    (List.range 5).flatMap fun row =>
      (List.range 5).flatMap fun col =>
        if getCell s row col = some turn_piece then
          offsets.flatMap fun ij =>
            if (ij.1 ≠ 0 ∨ ij.2 ≠ 0) ∧ 0 ≤ (row : Int) + ij.1 ∧ (row : Int) + ij.1 < 5 ∧
                0 ≤ (col : Int) + ij.2 ∧ (col : Int) + ij.2 < 5 ∧
                getCell s ((row : Int) + ij.1).toNat ((col : Int) + ij.2).toNat = none then
              [([(((row : Int) + ij.1).toNat, ((col : Int) + ij.2).toNat), (row, col)],
                setCell (setCell s (((row : Int) + ij.1).toNat)
                  (((col : Int) + ij.2).toNat) (some turn_piece)) row col none)]
            else []
        else []

/-- The successor loop of game.py `max_value`:
`alpha = max(alpha, f(successor)); if alpha >= beta: return beta`, and
`return alpha` after the loop.  `f` is the evaluation of a successor at the
next depth. -/
def maxLoop (f : Board → ℚ → ℚ → ℚ) : List (Move × Board) → ℚ → ℚ → ℚ
  | [], alpha, _ => alpha
  | (_, s') :: rest, alpha, beta =>
      let a' := max alpha (f s' alpha beta)
      if a' ≥ beta then beta else maxLoop f rest a' beta

/-- The successor loop of game.py `min_value`:
`beta = min(beta, self.max_value(state, depth-1, alpha, beta))` — note the
source recurses on the unmodified parent `state`, so `f` here takes only
alpha and beta and the generated successor is ignored — then
`if alpha >= beta: return alpha`, and `return beta` after the loop. -/
def minLoop (f : ℚ → ℚ → ℚ) : List (Move × Board) → ℚ → ℚ → ℚ
  | [], _, beta => beta
  | _ :: rest, alpha, beta =>
      let b' := min beta (f alpha beta)
      if alpha ≥ b' then alpha else minLoop f rest alpha b'

/-- game.py `max_value` and `min_value`, bundled as one structural recursion
on the depth so that the pair unfolds by computation:
`(searchFns dpc my depth).1` is `max_value(·, depth, ·, ·)` and
`(searchFns dpc my depth).2` is `min_value(·, depth, ·, ·)`.
Both return the terminal value when `game_value` is nonzero, the heuristic
at depth 0, and otherwise run their pruning loop over the successors of the
respective player (`my_piece` for max, `self.opp` for min).  The min side's
recursive call is on the unmodified parent state, exactly as in the
source. -/
def searchFns (dpc : Nat) (my : Piece) : Nat → (Board → ℚ → ℚ → ℚ) × (Board → ℚ → ℚ → ℚ)
  | 0 =>
      (fun s _ _ => let t := game_value my s
        if t ≠ 0 then t else heuristic_game_value dpc my s,
       fun s _ _ => let t := game_value my s
        if t ≠ 0 then t else heuristic_game_value dpc my s)
  | d+1 =>
      (fun s alpha beta =>
        let t := game_value my s
        if t ≠ 0 then t
        else maxLoop (fun s' a b => (searchFns dpc my d).2 s' a b) (succ dpc s my) alpha beta,
       fun s alpha beta =>
        let t := game_value my s
        if t ≠ 0 then t
        else minLoop (fun a b => (searchFns dpc my d).1 s a b) (succ dpc s my.other) alpha beta)

/-- game.py `max_value(state, depth, alpha, beta)`. -/
def max_value (dpc : Nat) (my : Piece) (depth : Nat) (s : Board) (alpha beta : ℚ) : ℚ :=
  (searchFns dpc my depth).1 s alpha beta

/-- game.py `min_value(state, depth, alpha, beta)`. -/
def min_value (dpc : Nat) (my : Piece) (depth : Nat) (s : Board) (alpha beta : ℚ) : ℚ :=
  (searchFns dpc my depth).2 s alpha beta

/-- The successor loop of a minimizing node as the specification describes
it: like `minLoop` but the recursive evaluation `f` is applied to the
generated successor state. -/
def minLoopSpec (f : Board → ℚ → ℚ → ℚ) : List (Move × Board) → ℚ → ℚ → ℚ
  | [], _, beta => beta
  | (_, s') :: rest, alpha, beta =>
      let b' := min beta (f s' alpha beta)
      if alpha ≥ b' then alpha else minLoopSpec f rest alpha b'

/-- Modelled from the spec: the search pair in which the minimizing branch
"recursively evaluates each generated successor board as a maximizing node
at depth−1" — i.e. identical to `searchFns` except that the min side
recurses on the generated successor instead of the unmodified parent.
Used only to compare with the source behavior. -/
def searchFnsSpec (dpc : Nat) (my : Piece) : Nat → (Board → ℚ → ℚ → ℚ) × (Board → ℚ → ℚ → ℚ)
  | 0 =>
      (fun s _ _ => let t := game_value my s
        if t ≠ 0 then t else heuristic_game_value dpc my s,
       fun s _ _ => let t := game_value my s
        if t ≠ 0 then t else heuristic_game_value dpc my s)
  | d+1 =>
      (fun s alpha beta =>
        let t := game_value my s
        if t ≠ 0 then t
        else maxLoop (fun s' a b => (searchFnsSpec dpc my d).2 s' a b) (succ dpc s my) alpha beta,
       fun s alpha beta =>
        let t := game_value my s
        if t ≠ 0 then t
        else minLoopSpec (fun s' a b => (searchFnsSpec dpc my d).1 s' a b)
          (succ dpc s my.other) alpha beta)

/-- Modelled from the spec: `min_value` with the minimizing branch recursing
on the generated successor (the behavior claim C1 asserts of the code). -/
def min_value_spec (dpc : Nat) (my : Piece) (depth : Nat) (s : Board) (alpha beta : ℚ) : ℚ :=
  (searchFnsSpec dpc my depth).2 s alpha beta

/-- game.py `make_move`: bump the phase counter (with the one-time
correction when the agent plays 'b' first), generate the successors of the
agent's piece, and return the move of the successor with the strictly
greatest `min_value(successor, 2, -1000, 1000)` score, first-seen winning
ties.  `dpc0` is the counter value before the call.  (On a full board the
Python code would raise an IndexError; that case returns the empty move
here and is outside every claim.) -/
def make_move (dpc0 : Nat) (my : Piece) (state : Board) : Move :=
  let d1 := dpc0 + 2
  let dpc := if my = Piece.b ∧ d1 = 2 then d1 - 1 else d1
  let successors := succ dpc state my
  match successors with
  | [] => []
  | first :: _ =>
      (successors.foldl (fun best ms =>
        if min_value dpc my 2 ms.2 (-1000) 1000 > min_value dpc my 2 best.2 (-1000) 1000
        then ms else best) first).1

/-- Number of cells of the grid holding piece `p`. -/
def countPiece (s : Board) (p : Piece) : Nat :=
  allCoords.countP fun rc => decide (getCell s rc.1 rc.2 = some p)

/-- Number of empty cells of the grid. -/
def numEmpty (s : Board) : Nat :=
  allCoords.countP fun rc => decide (getCell s rc.1 rc.2 = none)

/-- Contribution of one cell to the weighted positional score: the weight
where the agent's piece sits, its negation where the opponent's piece sits,
0 on an empty cell. -/
def cellScore (my : Piece) (s : Board) (rc : Nat × Nat) : ℚ :=
  if getCell s rc.1 rc.2 = some my then weight rc.1 rc.2
  else if getCell s rc.1 rc.2 = some my.other then -(weight rc.1 rc.2)
  else 0

/-- The weighted positional score as a plain sum over the 25 cells: the
weight added where the agent's piece sits, subtracted where the opponent's
piece sits.  This is the score the heuristic is specified to compute while
it is active. -/
def weightedScore (my : Piece) (s : Board) : ℚ :=
  (allCoords.map (cellScore my s)).sum

/-- Swap the two piece labels of one cell, leaving empty cells empty. -/
def swapCell (c : Cell) : Cell := c.map Piece.other

/-- Swap the two piece labels everywhere on a board. -/
def swapBoard (s : Board) : Board := s.map fun row => row.map swapCell

/-! ### Concrete boards used by the decidable claims -/

/-- The all-empty board. -/
def emptyBoard : Board := List.replicate 5 (List.replicate 5 (none : Cell))

/-- Shorthand for a cell holding 'b'. -/
def bb : Cell := some Piece.b

/-- Shorthand for a cell holding 'r'. -/
def rr : Cell := some Piece.r

/-- Four 'b' pieces at (0,0), (0,1), (0,2), (0,3). -/
def rowBoardB : Board :=
  [[bb, bb, bb, bb, none],
   [none, none, none, none, none],
   [none, none, none, none, none],
   [none, none, none, none, none],
   [none, none, none, none, none]]

/-- Four 'r' pieces at (0,0), (0,1), (0,2), (0,3). -/
def rowBoardR : Board :=
  [[rr, rr, rr, rr, none],
   [none, none, none, none, none],
   [none, none, none, none, none],
   [none, none, none, none, none],
   [none, none, none, none, none]]

/-- 'b' pieces on the corners of the 3×3 sub-square with top-left (r, c),
on an otherwise empty board. -/
def boxBoard (r c : Nat) : Board :=
  setCell (setCell (setCell (setCell emptyBoard r c bb) r (c+2) bb) (r+2) c bb) (r+2) (c+2) bb

/-- The (0,0) box-corner configuration with its center (1,1) occupied. -/
def boxOccupiedBoard : Board :=
  [[bb, none, bb, none, none],
   [none, rr, none, none, none],
   [bb, none, bb, none, none],
   [none, none, none, none, none],
   [none, none, none, none, none]]

/-- A single 'b' piece on the center cell (2,2). -/
def centerBoard : Board := setCell emptyBoard 2 2 bb

/-- A single 'b' piece on the border cell (0,0). -/
def cornerBoard : Board := setCell emptyBoard 0 0 bb

/-- Board for the min_value divergence: 'b' threatens to win at (0,3),
and 'r' to move can block there. -/
def c1Board : Board :=
  [[bb, bb, bb, none, none],
   [none, none, none, none, none],
   [none, none, rr, none, none],
   [none, none, none, none, rr],
   [none, none, none, none, rr]]

/-- Board for the make_move divergence: 'b' wins by placing at (0,1), and
the first empty cell in scan order, (0,0), is not a winning placement. -/
def c4Board : Board :=
  [[none, none, bb, bb, bb],
   [none, none, none, none, none],
   [rr, none, none, none, none],
   [none, none, rr, none, none],
   [none, none, none, none, rr]]

/-- An 8-piece board (4 per side) used to instantiate the
relocation-phase theorems. -/
def relocBoard : Board :=
  [[bb, bb, none, none, none],
   [bb, bb, none, none, none],
   [none, none, none, none, none],
   [none, none, none, rr, rr],
   [none, none, none, rr, rr]]

/-- The first relocation successor of `relocBoard` for 'b': the piece at
(0,1) slides to (0,2). -/
def relocEntry : Move × Board :=
  ([(0,2), (0,1)],
   [[bb, none, bb, none, none],
    [bb, bb, none, none, none],
    [none, none, none, none, none],
    [none, none, none, rr, rr],
    [none, none, none, rr, rr]])

end Teeko2

namespace Teeko2

/-! ### Basic evaluation helpers -/

theorem range5_eq : List.range 5 = [0, 1, 2, 3, 4] := rfl

/-- A left fold that only accumulates sums is a sum. -/
theorem foldl_add_eq {α : Type} (f : α → ℚ) (l : List α) (init : ℚ) :
    l.foldl (fun a x => a + f x) init = init + (l.map f).sum := by
  induction l generalizing init with
  | nil => simp
  | cons x xs ih => simp [ih, add_assoc]

/-- The body of the heuristic's cell loop adds exactly `cellScore`. -/
theorem heuristic_body_eq (my : Piece) (s : Board) (row col : Nat) (acc : ℚ) :
    (if getCell s row col = some my then acc + weight row col
     else if getCell s row col = some my.other then acc - weight row col
     else acc) = acc + cellScore my s (row, col) := by
  unfold cellScore
  split_ifs <;> ring

/-- Summing over the row-major coordinate list is the double sum over rows
and columns. -/
theorem sum_allCoords (f : Nat × Nat → ℚ) :
    (allCoords.map f).sum =
      ((List.range 5).map fun row =>
        (((List.range 5).map fun col => f (row, col)).sum)).sum := by
  unfold allCoords
  rw [List.map_flatMap]
  simp [List.flatMap, List.sum_flatten, List.map_map, Function.comp_def]

/-- While the heuristic is active (counter < 3) it computes exactly the
weighted positional score. -/
theorem heuristic_eq_weightedScore (dpc : Nat) (my : Piece) (s : Board)
    (h : dpc < 3) :
    heuristic_game_value dpc my s = weightedScore my s := by
  unfold heuristic_game_value weightedScore
  rw [if_pos h]
  simp only [heuristic_body_eq, foldl_add_eq, sum_allCoords]
  simp

/-- While the heuristic is inactive (counter ≥ 3) it returns 0. -/
theorem heuristic_inactive (dpc : Nat) (my : Piece) (s : Board)
    (h : ¬ dpc < 3) :
    heuristic_game_value dpc my s = 0 := by
  unfold heuristic_game_value
  rw [if_neg h]

/-! ### Claim C5 -/

/-- Claim C5: game_value returns 1 on a board whose cells (0,0),(0,1),(0,2),
(0,3) all hold my_piece, -1 when those four cells all hold the opponent's
piece, and 0 on the all-empty board; for every 3×3 sub-square origin (r,c)
with r,c ≤ 2, my_piece on the four corners with the center empty gives 1;
and the corner set with occupied center is not reported as a win. -/
theorem c5_game_value_terminal_detection :
    game_value Piece.b rowBoardB = 1 ∧
    game_value Piece.b rowBoardR = -1 ∧
    game_value Piece.b emptyBoard = 0 ∧
    (∀ r c : Fin 3, game_value Piece.b (boxBoard r.val c.val) = 1) ∧
    game_value Piece.b boxOccupiedBoard = 0 := by
  decide

/-! ### Claim C1 -/

/-- Claim C1 (code bug): at the concrete position `c1Board` with the
counter at 6, depth 2 and window (-1000, 1000), the source's min_value —
whose minimizing branch recurses on the unmodified parent state — returns
1, while the minimizing search the claim describes (recursing on each
generated successor) returns 0, because the opponent can block the
threatened win.  The two values differ, so the recursive call in the
source's minimizing branch is not applied to the generated successor. -/
theorem c1_min_value_ignores_successor :
    min_value 6 Piece.b 2 c1Board (-1000) 1000 = 1 ∧
    min_value_spec 6 Piece.b 2 c1Board (-1000) 1000 = 0 ∧
    (1 : ℚ) ≠ 0 := by
  refine ⟨by decide, by decide, by norm_num⟩

/-! ### Claim C2 -/

/-- Claim C2 (code bug): with the heuristic active (counter 0 < 3), a lone
agent piece on the center cell (2,2) scores 1/20 (= 0.05) and a lone agent
piece on the border cell (0,0) scores 1/5 (= 0.2) — the code's `a` and `c`
weights are swapped relative to its own docstring and the claim, which give
the center 0.2 and the border 0.05. -/
theorem c2_heuristic_weights_swapped :
    heuristic_game_value 0 Piece.b centerBoard = 1/20 ∧
    heuristic_game_value 0 Piece.b cornerBoard = 1/5 ∧
    (1/20 : ℚ) ≠ 1/5 := by
  refine ⟨?_, ?_, by norm_num⟩ <;>
    simp [heuristic_game_value, range5_eq, getCell, setCell, centerBoard, cornerBoard,
      emptyBoard, bb, weight, weightMatrix, Piece.other]

/-! ### Claim C4 -/

set_option maxHeartbeats 40000000 in
/-- Claim C4 (code bug): on `c4Board` (counter 4, so the updated counter 6
is in placement mode) the agent can win immediately by placing at (0,1),
yet make_move returns the placement (0,0), which does not win: every
successor's min_value evaluates to 1 because the defective minimizing
branch lets the maximizer keep playing from the parent state, so the
first-seen successor is kept. -/
theorem c4_make_move_misses_immediate_win :
    make_move 4 Piece.b c4Board = [((0 : Nat), (0 : Nat))] ∧
    getCell c4Board 0 1 = none ∧
    game_value Piece.b (setCell c4Board 0 1 bb) = 1 ∧
    game_value Piece.b (setCell c4Board 0 0 bb) = 0 := by
  refine ⟨by decide, by decide, by decide, by decide⟩

/-! ### Claim C8, counterexample -/

/-- Claim C8 is false as stated: on the board with four 'b' pieces in row 0
and my_piece = 'b', swapping every label on the board and swapping
my_piece/opponent gives game_value 1 again (the swapped board has four 'r'
pieces and my_piece = 'r'), not the negation -1.  The double swap preserves
ownership, so it cannot flip the sign. -/
theorem c8_double_swap_counterexample :
    ¬ (game_value (Piece.other Piece.b) (swapBoard rowBoardB) =
        -(game_value Piece.b rowBoardB)) := by
  decide

/-! ### Claim C3, counterexample -/

/-- Claim C3 is false as stated: with the counter at 5 — squarely inside
the placement phase the claim describes (5 < 9) — the heuristic returns 0
on a board whose weighted positional score is 1/20 ≠ 0, because the code
activates the heuristic only while drop_phase_check < 3. -/
theorem c3_gating_counterexample :
    (5 : Nat) < 9 ∧
    heuristic_game_value 5 Piece.b centerBoard = 0 ∧
    weightedScore Piece.b centerBoard ≠ 0 := by
  refine ⟨by norm_num, by simp [heuristic_game_value], ?_⟩
  rw [← heuristic_eq_weightedScore 0 Piece.b centerBoard (by norm_num)]
  simp [heuristic_game_value, range5_eq, getCell, setCell, centerBoard,
    emptyBoard, bb, weight, weightMatrix, Piece.other]


/-! ### Label-swap symmetry of game_value (claims C8) -/

/-- Pointwise effect of the label swap on a line check: match positions are
preserved and the owner flips, so the value negates. -/
theorem lineVal_swap : ∀ (my : Piece) (c0 c1 c2 c3 : Cell),
    lineVal my (swapCell c0) (swapCell c1) (swapCell c2) (swapCell c3) =
      (lineVal my c0 c1 c2 c3).map (fun q => -q) := by
  decide

/-- Pointwise effect of the label swap on a box check. -/
theorem boxVal_swap : ∀ (my : Piece) (c0 center c1 c2 c3 : Cell),
    boxVal my (swapCell c0) (swapCell center) (swapCell c1) (swapCell c2) (swapCell c3) =
      (boxVal my c0 center c1 c2 c3).map (fun q => -q) := by
  decide

/-- Reading with an empty-cell default through a cell-wise map commutes,
because the map sends the empty cell to itself. -/
theorem getD_map_cell (row : List Cell) (c : Nat) :
    (row.map swapCell).getD c none = swapCell (row.getD c none) := by
  rw [List.getD_eq_getElem?_getD, List.getD_eq_getElem?_getD, List.getElem?_map]
  cases row[c]? <;> simp [swapCell]

/-- Reading a row with an empty-row default through a row-wise map
commutes, because the map sends the empty row to itself. -/
theorem getD_map_row (s : Board) (r : Nat) :
    ((s.map fun row => row.map swapCell).getD r []) = (s.getD r []).map swapCell := by
  rw [List.getD_eq_getElem?_getD, List.getD_eq_getElem?_getD, List.getElem?_map]
  cases s[r]? <;> simp

/-- Reading a cell of the label-swapped board swaps the cell that is read. -/
theorem getCell_swapBoard (s : Board) (r c : Nat) :
    getCell (swapBoard s) r c = swapCell (getCell s r c) := by
  unfold getCell swapBoard
  rw [getD_map_row, getD_map_cell]

/-- A first-match scan whose element values all negate under a
transformation negates as a whole. -/
theorem findSome?_map_neg {α : Type} (f g : α → Option ℚ) (l : List α)
    (h : ∀ x ∈ l, g x = (f x).map (fun q => -q)) :
    l.findSome? g = (l.findSome? f).map (fun q => -q) := by
  induction l with
  | nil => simp
  | cons x xs ih =>
      rw [List.findSome?_cons, List.findSome?_cons, h x (by simp)]
      cases f x with
      | none => simpa using ih (fun y hy => h y (by simp [hy]))
      | some v => simp

/-- The horizontal scan negates under the label swap. -/
theorem hscan_swap (my : Piece) (s : Board) :
    hscan my (swapBoard s) = (hscan my s).map (fun q => -q) := by
  unfold hscan
  refine findSome?_map_neg _ _ _ (fun row _ => ?_)
  refine findSome?_map_neg _ _ _ (fun i _ => ?_)
  rw [getCell_swapBoard, getCell_swapBoard, getCell_swapBoard, getCell_swapBoard]
  exact lineVal_swap my _ _ _ _

/-- The vertical scan negates under the label swap. -/
theorem vscan_swap (my : Piece) (s : Board) :
    vscan my (swapBoard s) = (vscan my s).map (fun q => -q) := by
  unfold vscan
  refine findSome?_map_neg _ _ _ (fun col _ => ?_)
  refine findSome?_map_neg _ _ _ (fun i _ => ?_)
  rw [getCell_swapBoard, getCell_swapBoard, getCell_swapBoard, getCell_swapBoard]
  exact lineVal_swap my _ _ _ _

/-- The first diagonal scan negates under the label swap. -/
theorem dscan1_swap (my : Piece) (s : Board) :
    dscan1 my (swapBoard s) = (dscan1 my s).map (fun q => -q) := by
  unfold dscan1
  refine findSome?_map_neg _ _ _ (fun row _ => ?_)
  refine findSome?_map_neg _ _ _ (fun col _ => ?_)
  rw [getCell_swapBoard, getCell_swapBoard, getCell_swapBoard, getCell_swapBoard]
  exact lineVal_swap my _ _ _ _

/-- The second diagonal scan negates under the label swap. -/
theorem dscan2_swap (my : Piece) (s : Board) :
    dscan2 my (swapBoard s) = (dscan2 my s).map (fun q => -q) := by
  unfold dscan2
  refine findSome?_map_neg _ _ _ (fun row _ => ?_)
  refine findSome?_map_neg _ _ _ (fun col _ => ?_)
  rw [getCell_swapBoard, getCell_swapBoard, getCell_swapBoard, getCell_swapBoard]
  exact lineVal_swap my _ _ _ _

/-- The box scan negates under the label swap. -/
theorem boxscan_swap (my : Piece) (s : Board) :
    boxscan my (swapBoard s) = (boxscan my s).map (fun q => -q) := by
  unfold boxscan
  refine findSome?_map_neg _ _ _ (fun row _ => ?_)
  refine findSome?_map_neg _ _ _ (fun col _ => ?_)
  rw [getCell_swapBoard, getCell_swapBoard, getCell_swapBoard, getCell_swapBoard,
    getCell_swapBoard]
  exact boxVal_swap my _ _ _ _ _

/-- The whole first-match pattern value negates under the label swap. -/
theorem patternVal_swap (my : Piece) (s : Board) :
    patternVal my (swapBoard s) = (patternVal my s).map (fun q => -q) := by
  unfold patternVal
  rw [hscan_swap, vscan_swap, dscan1_swap, dscan2_swap, boxscan_swap]
  cases hscan my s <;> cases vscan my s <;> cases dscan1 my s <;>
    cases dscan2 my s <;> cases boxscan my s <;> simp [Option.orElse]

/-- Claim C8 (amended): swapping the two piece labels everywhere on the
board, while leaving my_piece and the opponent as they are, flips the sign
of game_value.  (Swapping the labels and the roles simultaneously, as the
claim literally states, preserves ownership and hence the value — see the
counterexample.) -/
theorem c8_swap_labels_flips_sign (my : Piece) (s : Board) :
    game_value my (swapBoard s) = -(game_value my s) := by
  unfold game_value
  rw [patternVal_swap]
  cases patternVal my s <;> simp

/-! ### Claim C3, amended theorem -/

/-- Claim C3 (amended): heuristic_game_value returns the weighted
positional score exactly while drop_phase_check < 3 — a proper initial
segment of the placement phase (drop_phase_check < 9) — and 0 otherwise;
the activation condition is strictly narrower than the placement phase. -/
theorem c3_heuristic_gated_below_three (dpc : Nat) (my : Piece) (s : Board) :
    heuristic_game_value dpc my s =
      if dpc < 3 then weightedScore my s else 0 := by
  by_cases h : dpc < 3
  case pos => rw [if_pos h]; exact heuristic_eq_weightedScore dpc my s h
  case neg => rw [if_neg h]; exact heuristic_inactive dpc my s h


/-! ### Successor generation in the placement phase (claim C6) -/

/-- A guarded singleton flat-map is a filter followed by a map. -/
theorem flatMap_guard_eq {α β : Type} (l : List α) (P : α → Prop) [DecidablePred P]
    (F : α → β) :
    (l.flatMap fun x => if P x then [F x] else []) =
      (l.filter fun x => decide (P x)).map F := by
  induction l with
  | nil => simp
  | cons x xs ih =>
      rw [List.flatMap_cons, List.filter_cons]
      by_cases h : P x
      · simp [h, ih]
      · simp [h, ih]

/-- Collapsing the nested row/column loops into one loop over the
row-major coordinate list. -/
theorem flatMap_allCoords {β : Type} (g : Nat → Nat → List β) :
    ((List.range 5).flatMap fun row => (List.range 5).flatMap fun col => g row col) =
      allCoords.flatMap fun rc => g rc.1 rc.2 := by
  unfold allCoords
  rw [List.flatMap_assoc]
  simp [List.flatMap_map]

/-- The row-major coordinate list, written out. -/
theorem allCoords_eq : allCoords =
    [(0,0),(0,1),(0,2),(0,3),(0,4),
     (1,0),(1,1),(1,2),(1,3),(1,4),
     (2,0),(2,1),(2,2),(2,3),(2,4),
     (3,0),(3,1),(3,2),(3,3),(3,4),
     (4,0),(4,1),(4,2),(4,3),(4,4)] := rfl

theorem allCoords_nodup : allCoords.Nodup := by decide

theorem mem_allCoords (rc : Nat × Nat) : rc ∈ allCoords ↔ rc.1 < 5 ∧ rc.2 < 5 := by
  obtain ⟨r, c⟩ := rc
  unfold allCoords
  simp only [List.mem_flatMap, List.mem_map, List.mem_range]
  constructor
  · rintro ⟨a, ha, b, hb, heq⟩
    rw [Prod.mk.injEq] at heq
    exact ⟨heq.1 ▸ ha, heq.2 ▸ hb⟩
  · rintro ⟨h1, h2⟩
    exact ⟨r, h1, c, h2, rfl⟩

/-- In the drop phase, succ is exactly: one placement entry per empty cell,
in row-major order. -/
theorem succ_placement_eq (dpc : Nat) (s : Board) (p : Piece) (hd : dpc < 9) :
    succ dpc s p =
      (allCoords.filter fun rc => decide (getCell s rc.1 rc.2 = none)).map
        (fun rc => ([rc], setCell s rc.1 rc.2 (some p))) := by
  unfold succ
  rw [if_pos hd,
    flatMap_allCoords (fun row col =>
      if getCell s row col = none then [([(row, col)], setCell s row col (some p))] else []),
    flatMap_guard_eq allCoords (fun rc => getCell s rc.1 rc.2 = none)
      (fun rc => ([(rc.1, rc.2)], setCell s rc.1 rc.2 (some p)))]

/-- setCell preserves the row count. -/
theorem length_setCell (s : Board) (r c : Nat) (v : Cell) :
    (setCell s r c v).length = s.length := by
  unfold setCell
  exact List.length_set s r _

/-- setCell preserves well-formedness. -/
theorem WF_setCell (s : Board) (hw : WF s) (r c : Nat) (v : Cell) :
    WF (setCell s r c v) := by
  obtain ⟨h1, h2⟩ := hw
  unfold setCell
  by_cases hr : r < s.length
  · refine ⟨by simp [h1], ?_⟩
    intro row hrow
    rcases List.mem_or_eq_of_mem_set hrow with h | h
    · exact h2 row h
    · subst h
      rw [List.length_set]
      have hmem : s.getD r [] ∈ s := by
        rw [List.getD_eq_getElem?_getD, List.getElem?_eq_getElem hr]
        exact List.getElem_mem hr
      exact h2 _ hmem
  · rw [List.set_eq_of_length_le (le_of_not_lt hr)]
    exact ⟨h1, h2⟩

/-- Reading back the cell just written, on a well-formed board. -/
theorem getCell_setCell_self (s : Board) (hw : WF s) (r c : Nat)
    (hr : r < 5) (hc : c < 5) (v : Cell) :
    getCell (setCell s r c v) r c = v := by
  obtain ⟨h1, h2⟩ := hw
  have hr' : r < s.length := by omega
  have hmem : s[r]?.getD [] ∈ s := by
    rw [List.getElem?_eq_getElem hr']
    exact List.getElem_mem hr'
  have hrow : (s[r]?.getD []).length = 5 := h2 _ hmem
  unfold getCell setCell
  simp only [List.getD_eq_getElem?_getD]
  rw [List.getElem?_set_self hr', Option.getD_some,
    List.getElem?_set_self (by omega), Option.getD_some]

/-- Reading any other cell after a write returns the original content. -/
theorem getCell_setCell_ne (s : Board) (r c r0 c0 : Nat) (v : Cell)
    (h : (r0, c0) ≠ (r, c)) :
    getCell (setCell s r c v) r0 c0 = getCell s r0 c0 := by
  unfold getCell setCell
  simp only [List.getD_eq_getElem?_getD]
  by_cases hrr : r0 = r
  · subst hrr
    have hcc : c0 ≠ c := fun hc => h (by rw [hc])
    by_cases hlen : r0 < s.length
    · rw [List.getElem?_set_self hlen, Option.getD_some,
        List.getElem?_set_ne (Ne.symm hcc)]
    · rw [List.set_eq_of_length_le (le_of_not_lt hlen)]
  · rw [List.getElem?_set_ne (fun hh => hrr hh.symm)]

/-- Claim C6: in placement mode (counter < 9) on a well-formed board with
at least one empty cell, succ returns exactly one entry per empty cell;
the moves are single-tuple placements on pairwise distinct empty cells;
each returned board equals the input except that the placed cell now holds
the piece (the input board itself is never modified — the embedding is
functional and each successor is built from a fresh copy). -/
theorem c6_succ_placement (dpc : Nat) (s : Board) (p : Piece)
    (hd : dpc < 9) (hw : WF s) (_hne : 0 < numEmpty s) :
    (succ dpc s p).length = numEmpty s ∧
    ((succ dpc s p).map Prod.fst).Nodup ∧
    (∀ e ∈ succ dpc s p, ∃ r c : Nat, r < 5 ∧ c < 5 ∧
      getCell s r c = none ∧ e.1 = [(r, c)] ∧
      e.2 = setCell s r c (some p) ∧
      getCell e.2 r c = some p ∧
      (∀ r0 c0 : Nat, (r0, c0) ≠ (r, c) → getCell e.2 r0 c0 = getCell s r0 c0)) := by
  rw [succ_placement_eq dpc s p hd]
  refine ⟨?_, ?_, ?_⟩
  · rw [List.length_map, ← List.countP_eq_length_filter]
    rfl
  · rw [List.map_map]
    have hinj : Function.Injective
        ((Prod.fst ∘ fun rc : Nat × Nat => (([rc] : Move), setCell s rc.1 rc.2 (some p)))) := by
      intro a b hab
      simpa using hab
    exact ((allCoords_nodup.filter _).map hinj)
  · intro e he
    simp only [List.mem_map, List.mem_filter] at he
    obtain ⟨⟨r, c⟩, ⟨hmem, hempty⟩, rfl⟩ := he
    have hb := (mem_allCoords (r, c)).1 hmem
    have hemp : getCell s r c = none := by simpa using hempty
    refine ⟨r, c, hb.1, hb.2, hemp, rfl, rfl, ?_, ?_⟩
    · exact getCell_setCell_self s hw r c hb.1 hb.2 (some p)
    · intro r0 c0 hne0
      exact getCell_setCell_ne s r c r0 c0 (some p) hne0

/-- Concrete instantiation of the placement-phase succ theorem at the
empty board. -/
theorem c6_succ_placement_witness :
    ((0 < 9 ∧ WF emptyBoard ∧ 0 < numEmpty emptyBoard) ∧
     ((succ 0 emptyBoard Piece.b).length = numEmpty emptyBoard ∧
      ((succ 0 emptyBoard Piece.b).map Prod.fst).Nodup ∧
      (∀ e ∈ succ 0 emptyBoard Piece.b, ∃ r c : Nat, r < 5 ∧ c < 5 ∧
        getCell emptyBoard r c = none ∧ e.1 = [(r, c)] ∧
        e.2 = setCell emptyBoard r c (some Piece.b) ∧
        getCell e.2 r c = some Piece.b ∧
        (∀ r0 c0 : Nat, (r0, c0) ≠ (r, c) →
          getCell e.2 r0 c0 = getCell emptyBoard r0 c0)))) :=
  ⟨⟨by decide, by decide, by decide⟩,
    c6_succ_placement 0 emptyBoard Piece.b (by decide) (by decide) (by decide)⟩


/-! ### Successor generation in the relocation phase (claims C7, C10) -/

theorem offsets_bounds : ∀ ij ∈ offsets, -1 ≤ ij.1 ∧ ij.1 ≤ 1 ∧ -1 ≤ ij.2 ∧ ij.2 ≤ 1 := by
  decide

/-- Anatomy of a relocation-phase successor: every entry comes from a source
cell (r, c) holding the piece and an in-bounds empty destination cell
(r', c') at Chebyshev distance at most 1, and the new board is the double
update writing the piece at the destination and emptying the source. -/
theorem succ_reloc_mem (dpc : Nat) (s : Board) (p : Piece) (hd : ¬ dpc < 9)
    (e : Move × Board) (he : e ∈ succ dpc s p) :
    ∃ r c r' c' : Nat, r < 5 ∧ c < 5 ∧ r' < 5 ∧ c' < 5 ∧
      getCell s r c = some p ∧ getCell s r' c' = none ∧
      (r', c') ≠ (r, c) ∧
      r' ≤ r + 1 ∧ r ≤ r' + 1 ∧ c' ≤ c + 1 ∧ c ≤ c' + 1 ∧
      e.1 = [(r', c'), (r, c)] ∧
      e.2 = setCell (setCell s r' c' (some p)) r c none := by
  unfold succ at he
  rw [if_neg hd] at he
  simp only [List.mem_flatMap, List.mem_range] at he
  obtain ⟨row, hrow, col, hcol, hin⟩ := he
  by_cases hcell : getCell s row col = some p
  case neg => rw [if_neg hcell] at hin; simp at hin
  rw [if_pos hcell] at hin
  simp only [List.mem_flatMap] at hin
  obtain ⟨ij, hij, hin2⟩ := hin
  by_cases hcond : (ij.1 ≠ 0 ∨ ij.2 ≠ 0) ∧ 0 ≤ (row : Int) + ij.1 ∧ (row : Int) + ij.1 < 5 ∧
      0 ≤ (col : Int) + ij.2 ∧ (col : Int) + ij.2 < 5 ∧
      getCell s ((row : Int) + ij.1).toNat ((col : Int) + ij.2).toNat = none
  case neg => rw [if_neg hcond] at hin2; simp at hin2
  rw [if_pos hcond, List.mem_singleton] at hin2
  obtain ⟨hnz, h0r, h5r, h0c, h5c, hdest⟩ := hcond
  obtain ⟨hb1, hb2, hb3, hb4⟩ := offsets_bounds ij hij
  subst hin2
  refine ⟨row, col, ((row : Int) + ij.1).toNat, ((col : Int) + ij.2).toNat,
    hrow, hcol, by omega, by omega, hcell, hdest, ?_, by omega, by omega, by omega, by omega,
    rfl, rfl⟩
  rw [Ne, Prod.mk.injEq]
  rintro ⟨e1, e2⟩
  rcases hnz with h | h <;> omega

/-- Claim C7: in relocation mode (counter ≥ 9) on a well-formed board,
every succ entry is a (destination, source) move whose source holds the
piece, whose destination is an empty in-bounds cell different from the
source and within Chebyshev distance 1 of it (so neither coordinate wraps
around an edge), and in the successor board the source is empty and the
destination holds the piece. -/
theorem c7_succ_relocation (dpc : Nat) (s : Board) (p : Piece)
    (hd : 9 ≤ dpc) (hw : WF s) :
    ∀ e ∈ succ dpc s p, ∃ r c r' c' : Nat,
      e.1 = [(r', c'), (r, c)] ∧
      getCell s r c = some p ∧ getCell s r' c' = none ∧
      (r', c') ≠ (r, c) ∧ r' < 5 ∧ c' < 5 ∧
      r' ≤ r + 1 ∧ r ≤ r' + 1 ∧ c' ≤ c + 1 ∧ c ≤ c' + 1 ∧
      getCell e.2 r c = none ∧ getCell e.2 r' c' = some p := by
  intro e he
  obtain ⟨r, c, r', c', hr, hc, hr', hc', hsrc, hdst, hne, hch1, hch2, hch3, hch4, hmv, hbd⟩ :=
    succ_reloc_mem dpc s p (by omega) e he
  refine ⟨r, c, r', c', hmv, hsrc, hdst, hne, hr', hc', hch1, hch2, hch3, hch4, ?_, ?_⟩
  · rw [hbd]
    exact getCell_setCell_self _ (WF_setCell s hw r' c' (some p)) r c hr hc none
  · rw [hbd, getCell_setCell_ne _ r c r' c' none hne]
    exact getCell_setCell_self s hw r' c' hr' hc' (some p)

/-- Concrete instantiation of the relocation-phase succ theorem. -/
theorem c7_succ_relocation_witness :
    ((9 ≤ 10 ∧ WF relocBoard ∧ relocEntry ∈ succ 10 relocBoard Piece.b) ∧
     (∃ r c r' c' : Nat,
       relocEntry.1 = [(r', c'), (r, c)] ∧
       getCell relocBoard r c = some Piece.b ∧ getCell relocBoard r' c' = none ∧
       (r', c') ≠ (r, c) ∧ r' < 5 ∧ c' < 5 ∧
       r' ≤ r + 1 ∧ r ≤ r' + 1 ∧ c' ≤ c + 1 ∧ c ≤ c' + 1 ∧
       getCell relocEntry.2 r c = none ∧ getCell relocEntry.2 r' c' = some Piece.b)) :=
  ⟨⟨by decide, by decide, by decide⟩,
    c7_succ_relocation 10 relocBoard Piece.b (by decide) (by decide) relocEntry (by decide)⟩

/-- Counting by one predicate equals counting by another when, on a
duplicate-free list, the predicates disagree only at two listed points
that trade a hit for a miss. -/
theorem countP_swap {α : Type} [DecidableEq α] (l : List α) (hl : l.Nodup)
    (x y : α) (hx : x ∈ l) (hy : y ∈ l) (hxy : x ≠ y) (f g : α → Bool)
    (hfx : f x = true) (hgx : g x = false) (hfy : f y = false) (hgy : g y = true)
    (h : ∀ z ∈ l, z ≠ x → z ≠ y → f z = g z) :
    l.countP f = l.countP g := by
  have p1 : l.Perm (x :: l.erase x) := List.perm_cons_erase hx
  have hyx : y ∈ l.erase x := (List.mem_erase_of_ne hxy.symm).2 hy
  have hnd : (l.erase x).Nodup := hl.erase x
  have p2 : (l.erase x).Perm (y :: (l.erase x).erase y) := List.perm_cons_erase hyx
  have congr2 : ((l.erase x).erase y).countP f = ((l.erase x).erase y).countP g := by
    apply List.countP_congr
    intro z hz
    have hz1 : z ∈ l.erase x := List.mem_of_mem_erase hz
    have hzy : z ≠ y := ((hnd.mem_erase_iff).1 hz).1
    have hzx : z ≠ x := ((hl.mem_erase_iff).1 hz1).1
    have hzl : z ∈ l := List.mem_of_mem_erase hz1
    rw [h z hzl hzx hzy]
  rw [p1.countP_eq f, p1.countP_eq g, List.countP_cons, List.countP_cons,
    p2.countP_eq f, p2.countP_eq g, List.countP_cons, List.countP_cons,
    congr2, hfx, hgx, hfy, hgy]
  simp

theorem Piece.other_ne (p : Piece) : p.other ≠ p := by cases p <;> decide

/-- Claim C10: in relocation mode every successor board agrees with the
input everywhere except the move's source (now empty) and destination (now
the piece); in particular every cell holding the other player's piece is
untouched and the number of cells holding the moved piece is preserved. -/
theorem c10_succ_relocation_frame (dpc : Nat) (s : Board) (p : Piece)
    (hd : 9 ≤ dpc) (hw : WF s) :
    ∀ e ∈ succ dpc s p, ∃ r c r' c' : Nat,
      e.1 = [(r', c'), (r, c)] ∧
      getCell e.2 r c = none ∧ getCell e.2 r' c' = some p ∧
      (∀ r0 c0 : Nat, (r0, c0) ≠ (r, c) → (r0, c0) ≠ (r', c') →
        getCell e.2 r0 c0 = getCell s r0 c0) ∧
      (∀ r0 c0 : Nat, getCell s r0 c0 = some p.other →
        getCell e.2 r0 c0 = some p.other) ∧
      countPiece e.2 p = countPiece s p := by
  intro e he
  obtain ⟨r, c, r', c', hr, hc, hr', hc', hsrc, hdst, hne, hch1, hch2, hch3, hch4, hmv, hbd⟩ :=
    succ_reloc_mem dpc s p (by omega) e he
  have hframe : ∀ r0 c0 : Nat, (r0, c0) ≠ (r, c) → (r0, c0) ≠ (r', c') →
      getCell e.2 r0 c0 = getCell s r0 c0 := by
    intro r0 c0 h1 h2
    rw [hbd, getCell_setCell_ne _ r c r0 c0 none h1,
      getCell_setCell_ne s r' c' r0 c0 (some p) h2]
  have hsrc' : getCell e.2 r c = none := by
    rw [hbd]
    exact getCell_setCell_self _ (WF_setCell s hw r' c' (some p)) r c hr hc none
  have hdst' : getCell e.2 r' c' = some p := by
    rw [hbd, getCell_setCell_ne _ r c r' c' none hne]
    exact getCell_setCell_self s hw r' c' hr' hc' (some p)
  refine ⟨r, c, r', c', hmv, hsrc', hdst', hframe, ?_, ?_⟩
  · intro r0 c0 h0
    have h1 : (r0, c0) ≠ (r, c) := by
      rintro hh
      rw [Prod.mk.injEq] at hh
      rw [hh.1, hh.2, hsrc] at h0
      exact Piece.other_ne p (Option.some_injective _ h0.symm)
    have h2 : (r0, c0) ≠ (r', c') := by
      rintro hh
      rw [Prod.mk.injEq] at hh
      rw [hh.1, hh.2, hdst] at h0
      cases h0
    rw [hframe r0 c0 h1 h2, h0]
  · unfold countPiece
    refine (countP_swap allCoords allCoords_nodup (r, c) (r', c')
      ((mem_allCoords _).2 ⟨hr, hc⟩) ((mem_allCoords _).2 ⟨hr', hc'⟩)
      (fun hh => hne hh.symm) _ _ ?_ ?_ ?_ ?_ ?_).symm
    · simp [hsrc]
    · simp [hsrc']
    · simp [hdst]
    · simp [hdst']
    · intro z hz hzx hzy
      obtain ⟨z1, z2⟩ := z
      rw [hframe z1 z2 hzx hzy]

/-- Concrete instantiation of the relocation-phase frame theorem. -/
theorem c10_succ_relocation_frame_witness :
    ((9 ≤ 10 ∧ WF relocBoard ∧ relocEntry ∈ succ 10 relocBoard Piece.b) ∧
     (∃ r c r' c' : Nat,
       relocEntry.1 = [(r', c'), (r, c)] ∧
       getCell relocEntry.2 r c = none ∧ getCell relocEntry.2 r' c' = some Piece.b ∧
       (∀ r0 c0 : Nat, (r0, c0) ≠ (r, c) → (r0, c0) ≠ (r', c') →
         getCell relocEntry.2 r0 c0 = getCell relocBoard r0 c0) ∧
       (∀ r0 c0 : Nat, getCell relocBoard r0 c0 = some (Piece.other Piece.b) →
         getCell relocEntry.2 r0 c0 = some (Piece.other Piece.b)) ∧
       countPiece relocEntry.2 Piece.b = countPiece relocBoard Piece.b)) :=
  ⟨⟨by decide, by decide, by decide⟩,
    c10_succ_relocation_frame 10 relocBoard Piece.b (by decide) (by decide) relocEntry (by decide)⟩


/-! ### Heuristic magnitude bound (claim C9) -/

/-- Every weight of the code's matrix lies between 0 and 1/5. -/
theorem weight_in_range : ∀ rc ∈ allCoords,
    (0:ℚ) ≤ weight rc.1 rc.2 ∧ weight rc.1 rc.2 ≤ 1/5 := by
  intro rc hrc
  rw [allCoords_eq] at hrc
  fin_cases hrc <;> constructor <;> norm_num [weight, weightMatrix]

theorem other_other (p : Piece) : p.other.other = p := by cases p <;> rfl

/-- A cell's score is at most 1/5 where the agent's piece sits and at most
0 elsewhere. -/
theorem cellScore_le (my : Piece) (s : Board) (rc : Nat × Nat) (h : rc ∈ allCoords) :
    cellScore my s rc ≤ (if getCell s rc.1 rc.2 = some my then (1:ℚ)/5 else 0) := by
  obtain ⟨h0, h1⟩ := weight_in_range rc h
  unfold cellScore
  split_ifs with hmy hopp
  · exact h1
  · linarith
  · norm_num

/-- Swapping the agent's role negates each cell's score. -/
theorem cellScore_other_neg (my : Piece) (s : Board) (rc : Nat × Nat) :
    cellScore my.other s rc = -(cellScore my s rc) := by
  unfold cellScore
  rw [other_other]
  rcases hcell : getCell s rc.1 rc.2 with _ | q
  · simp
  · cases q <;> cases my <;> simp [Piece.other]

/-- Summing negated values negates the sum. -/
theorem sum_map_neg {α : Type} (l : List α) (f : α → ℚ) :
    (l.map fun x => -(f x)).sum = -((l.map f).sum) := by
  induction l with
  | nil => simp
  | cons x xs ih => simp [ih]; ring

/-- A sum of w-or-0 values is the hit count times w. -/
theorem sum_ite_count {α : Type} (l : List α) (P : α → Prop) [DecidablePred P] (w : ℚ) :
    (l.map fun x => if P x then w else 0).sum =
      (l.countP fun x => decide (P x)) * w := by
  induction l with
  | nil => simp
  | cons x xs ih =>
      rw [List.map_cons, List.sum_cons, ih, List.countP_cons]
      by_cases h : P x
      · simp [h]
        ring
      · simp [h]

/-- The weighted score is at most (number of the agent's pieces) / 5. -/
theorem weightedScore_le (my : Piece) (s : Board) :
    weightedScore my s ≤ (countPiece s my : ℚ) * (1/5) := by
  unfold weightedScore
  have h1 : (allCoords.map (cellScore my s)).sum ≤
      (allCoords.map fun rc => if getCell s rc.1 rc.2 = some my then (1:ℚ)/5 else 0).sum :=
    List.sum_le_sum (fun rc hrc => cellScore_le my s rc hrc)
  rw [sum_ite_count allCoords (fun rc => getCell s rc.1 rc.2 = some my) (1/5)] at h1
  exact h1

/-- Swapping the agent's role negates the weighted score. -/
theorem weightedScore_other (my : Piece) (s : Board) :
    weightedScore my.other s = -(weightedScore my s) := by
  unfold weightedScore
  calc (allCoords.map (cellScore my.other s)).sum
      = (allCoords.map fun rc => -(cellScore my s rc)).sum := by
        apply congrArg
        apply List.map_congr_left
        intro rc _
        exact cellScore_other_neg my s rc
    _ = -((allCoords.map (cellScore my s)).sum) := sum_map_neg allCoords (cellScore my s)

/-- Claim C9: on any board with at most 4 'b' pieces and at most 4 'r'
pieces, the heuristic's magnitude is strictly below 1 (in fact at most 4/5,
and 0 when the heuristic is inactive). -/
theorem c9_heuristic_strictly_inside_unit (dpc : Nat) (my : Piece) (s : Board)
    (hb : countPiece s Piece.b ≤ 4) (hr : countPiece s Piece.r ≤ 4) :
    |heuristic_game_value dpc my s| < 1 := by
  by_cases h : dpc < 3
  case neg => rw [heuristic_inactive dpc my s h]; norm_num
  rw [heuristic_eq_weightedScore dpc my s h]
  have hcm : countPiece s my ≤ 4 := by cases my; exacts [hb, hr]
  have hco : countPiece s my.other ≤ 4 := by cases my; exacts [hr, hb]
  have h1 : weightedScore my s ≤ (countPiece s my : ℚ) * (1/5) := weightedScore_le my s
  have h2 : weightedScore my.other s ≤ (countPiece s my.other : ℚ) * (1/5) :=
    weightedScore_le my.other s
  rw [weightedScore_other my s] at h2
  have hc1 : (countPiece s my : ℚ) ≤ 4 := by exact_mod_cast hcm
  have hc2 : (countPiece s my.other : ℚ) ≤ 4 := by exact_mod_cast hco
  rw [abs_lt]
  constructor <;> linarith

/-- Concrete instantiation of the heuristic bound. -/
theorem c9_heuristic_strictly_inside_unit_witness :
    (countPiece centerBoard Piece.b ≤ 4 ∧ countPiece centerBoard Piece.r ≤ 4) ∧
    |heuristic_game_value 0 Piece.b centerBoard| < 1 :=
  ⟨⟨by decide, by decide⟩,
    c9_heuristic_strictly_inside_unit 0 Piece.b centerBoard (by decide) (by decide)⟩

end Teeko2
